import Mathlib

/-!
Verification of the music sorting tool (sort_music.py).

The source program classifies .wav files into genre folders by matching
regular-expression keywords against the lowercased filename, copies each file
into its category folder under the output root (with a " v{n}"-style rename on
name collisions), duplicates files whose name starts with +++ into a
_FAVORITES subfolder, and records per-file copy errors without aborting.

This file shallowly embeds that program:
  * the regular-expression subset used by GENRE_RULES (literals, the escapes
    for parentheses, word boundaries, one-or-more digits, and an optional
    trailing character) is embedded as an executable matcher;
  * GENRE_RULES, classify_file, is_favorite, sanitize_filename and
    get_next_version_filename are translated definition by definition;
  * the filesystem is modelled as the finite list of paths (files and
    directories alike) that currently exist, a path being its list of
    components; shutil.copy2 adds the destination path, mkdir adds the
    directory prefixes, nothing is ever removed;
  * the unbounded while loop of get_next_version_filename is run with
    provably sufficient fuel (a free candidate exists among the first
    fs.length + 1 counters, by pigeonhole), so the definition computes and
    equals the least-counter semantics of the loop;
  * exceptions of shutil.copy2 are modelled by an oracle giving, per file
    index and per copy (primary or favorites), whether the copy raises and
    with which message.
-/

namespace MusicSort

/-! ### The regular-expression subset used by the rule table -/

/-- Tokens of the regular-expression subset appearing in GENRE_RULES:
a literal character, an optional literal character (from a trailing question
mark), one or more digits (backslash-d plus), and a word boundary
(backslash-b). -/
inductive RTok where
  | lit (c : Char)
  | opt (c : Char)
  | digits
  | wb
deriving DecidableEq, Repr

/-- Compile one of the pattern strings of GENRE_RULES into tokens. Handles
exactly the constructs those patterns use: backslash-b, backslash-d-plus,
backslash escapes of parentheses, a question mark making the preceding
character optional, and literal characters. -/
def compile : List Char → List RTok
  | [] => []
  | '\\' :: 'b' :: rest => .wb :: compile rest
  | '\\' :: 'd' :: '+' :: rest => .digits :: compile rest
  | '\\' :: c :: rest => .lit c :: compile rest
  | c :: '?' :: rest => .opt c :: compile rest
  | c :: rest => .lit c :: compile rest

/-- Word characters, as in the word-boundary semantics of re: letters, digits
and the underscore (the filenames at issue are ASCII). -/
def isWordChar (c : Char) : Bool := c.isAlphanum || c = '_'

def isWordOpt : Option Char → Bool
  | none => false
  | some c => isWordChar c

/-- A word boundary holds between the previous character (none at the string
edge) and the next one. -/
def wordBoundary (prev : Option Char) (s : List Char) : Bool :=
  isWordOpt prev != isWordOpt s.head?

/-- Case-insensitive literal match (re.IGNORECASE; the table patterns are
lowercase). -/
def litMatch (c x : Char) : Bool := x.toLower == c

/-- After at least one digit was consumed, greedily consume further digits,
backtracking to the continuation k (the match of the remaining tokens) at
every split. -/
def tryDigits (k : Char → List Char → Bool) : Char → List Char → Bool
  | prev, [] => k prev []
  | prev, x :: rest =>
      (x.isDigit && tryDigits k x rest) || k prev (x :: rest)

/-- Match the token list against a prefix of s; prev is the character just
before s, for word boundaries. Implements the backtracking semantics of the
embedded subset. -/
def matchToks : List RTok → Option Char → List Char → Bool
  | [], _, _ => true
  | .wb :: ts, prev, s => wordBoundary prev s && matchToks ts prev s
  | .lit _ :: _, _, [] => false
  | .lit c :: ts, _, x :: rest => litMatch c x && matchToks ts (some x) rest
  | .opt _ :: ts, prev, [] => matchToks ts prev []
  | .opt c :: ts, prev, x :: rest =>
      (litMatch c x && matchToks ts (some x) rest) || matchToks ts prev (x :: rest)
  | .digits :: _, _, [] => false
  | .digits :: ts, _, x :: rest =>
      x.isDigit && tryDigits (fun pc s => matchToks ts (some pc) s) x rest

/-- re.search: the compiled pattern matches at some start position. -/
def searchFrom (toks : List RTok) : Option Char → List Char → Bool
  | prev, s =>
      matchToks toks prev s ||
        match s with
        | [] => false
        | x :: rest => searchFrom toks (some x) rest

/-- re.search of a pattern string against a subject string. -/
def research (pattern : String) (s : String) : Bool :=
  searchFrom (compile pattern.data) none s.data

/-! ### The rule table -/

/-- One entry of GENRE_RULES: its key, destination folder, keyword patterns
and priority. -/
structure Rule where
  name : String
  folder : String
  keywords : List String
  priority : Nat
deriving DecidableEq, Repr

/-- GENRE_RULES, in declaration order of the source dictionary. -/
def GENRE_RULES : List Rule := [
  { name := "stems_vocals", folder := "06_Stems_Production/Vocals",
    keywords := ["\\(vocals?\\)"], priority := 1 },
  { name := "stems_instrumental", folder := "06_Stems_Production/Instrumental",
    keywords := ["\\binstrumental\\b", "\\(instrumental\\)"], priority := 1 },
  { name := "stems_other", folder := "06_Stems_Production/Stems",
    keywords := ["\\(bass\\)", "\\(drums?\\)", "\\(other\\)", "\\(stem"], priority := 1 },
  { name := "remixes_artists", folder := "05_Remixes_Edits/Artist_Remixes",
    keywords := ["\\banyma\\b", "\\bargy\\b", "\\bklingande\\b", "\\bjubel\\b", "son of son"],
    priority := 2 },
  { name := "remixes_extended", folder := "05_Remixes_Edits/Extended_Versions",
    keywords := ["\\bremix\\b", "\\bedit\\b", "\\bext v\\d+", "\\bextended\\b"], priority := 2 },
  { name := "electronic_house", folder := "01_Electronic_Dance/House",
    keywords := ["\\bhouse\\b", "\\bdeep house\\b", "\\bprogressive house\\b"], priority := 3 },
  { name := "electronic_techno", folder := "01_Electronic_Dance/Techno",
    keywords := ["\\btechno\\b", "\\bmelodic techno\\b"], priority := 3 },
  { name := "electronic_psytrance", folder := "01_Electronic_Dance/Psytrance",
    keywords := ["\\bpsytrance\\b", "\\bpsychedelic\\b", "\\bpsych\\b"], priority := 3 },
  { name := "electronic_idm", folder := "01_Electronic_Dance/IDM",
    keywords := ["\\bidm\\b", "\\bintelligent dance\\b"], priority := 3 },
  { name := "electronic_electro", folder := "01_Electronic_Dance/Electro",
    keywords := ["\\belectro\\b", "\\belectronic\\b", "\\belectronica\\b"], priority := 3 },
  { name := "atmospheric_hypnotic", folder := "02_Atmospheric_Electronic/Hypnotic",
    keywords := ["\\bhypnotic\\b", "\\btrance\\b"], priority := 4 },
  { name := "atmospheric_ethereal", folder := "02_Atmospheric_Electronic/Ethereal",
    keywords := ["\\bethereal\\b", "\\bdream\\b", "\\bdreamy\\b"], priority := 4 },
  { name := "atmospheric_melodic", folder := "02_Atmospheric_Electronic/Melodic",
    keywords := ["\\bmelodic\\b", "\\beuphoric\\b", "\\bmellow\\b", "\\bsoothing\\b"],
    priority := 4 },
  { name := "atmospheric_ambient", folder := "02_Atmospheric_Electronic/Ambient",
    keywords := ["\\bambient\\b", "\\batmospheric\\b", "\\bcosmic\\b", "\\bspace\\b"],
    priority := 4 },
  { name := "rock", folder := "03_Rock_Alternative/Rock",
    keywords := ["\\brock\\b", "\\balternative\\b", "\\bindie\\b", "\\bpunk\\b", "\\bmetal\\b"],
    priority := 5 },
  { name := "pop", folder := "04_Pop_Mainstream/Pop",
    keywords := ["\\bpop\\b", "\\bsynthpop\\b"], priority := 5 },
  { name := "german", folder := "07_German_Electronic/Deutsche_Tracks",
    keywords := ["\\bder\\b", "\\bdie\\b", "\\bdas\\b", "\\bzeit\\b", "\\btanz\\b",
      "\\bwald\\b", "\\bschwingung\\b", "\\bkreist\\b", "\\bhalsband\\b",
      "\\bflimmern\\b", "\\bsymbole\\b", "\\binkubation\\b", "\\bnur\\b"], priority := 6 }
]

def UNCATEGORIZED_FOLDER : String := "99_Uncategorized/Other"

def FAVORITES_SUBFOLDER : String := "_FAVORITES"

/-- Default rule used only as the out-of-range value of List.getD in
statements about rule indices. -/
def defaultRule : Rule :=
  { name := "", folder := UNCATEGORIZED_FOLDER, keywords := [], priority := 999 }

/-! ### The classifier -/

/-- One rule matches the filename when some of its keyword patterns does
(re.search with re.IGNORECASE). -/
def ruleMatches (r : Rule) (f : String) : Bool :=
  r.keywords.any (fun p => research p f)

/-- Stable insertion into a priority-sorted rule list: the inserted rule goes
before the first rule of greater-or-equal priority that came later in the
scan, keeping declaration order within equal priorities. -/
def insertRule (r : Rule) : List Rule → List Rule
  | [] => [r]
  | y :: ys => if r.priority ≤ y.priority then r :: y :: ys else y :: insertRule r ys

/-- Stable ascending sort by priority, modelling sorted(GENRE_RULES.items(),
key priority), which is stable. -/
def sortRules : List Rule → List Rule
  | [] => []
  | x :: xs => insertRule x (sortRules xs)

/-- First rule in the list with any matching pattern. -/
def firstMatch : List Rule → String → Option Rule
  | [], _ => none
  | r :: rs, f => if ruleMatches r f then some r else firstMatch rs f

/-- classify_file: iterate the rules sorted by ascending priority and return
the folder and priority of the first rule with a matching keyword, or the
uncategorized fallback with sentinel priority 999. -/
def classify_file (filename_lower : String) : String × Nat :=
  match firstMatch (sortRules GENRE_RULES) filename_lower with
  | some r => (r.folder, r.priority)
  | none => (UNCATEGORIZED_FOLDER, 999)

/-- is_favorite: the filename starts with the three-character marker. -/
def is_favorite (filename : String) : Bool :=
  List.isPrefixOf "+++".data filename.data

/-- sanitize_filename: replace the characters the source regex class lists
by an underscore. (Defined in the source but never called by the pipeline.) -/
def sanitize_filename (filename : String) : String :=
  ⟨filename.data.map (fun c =>
    if c ∈ ['<', '>', ':', '\"', '/', '\\', '|', '?', '*'] then '_' else c)⟩

/-- str.lower applied to a filename before classification. -/
def lowerStr (s : String) : String := ⟨s.data.map Char.toLower⟩

/-! ### Paths and the versioning resolver

A path is its list of components; the filesystem is the finite list of paths
(files and directories alike) that exist. -/

/-- A filesystem path, as its list of components. -/
abbrev FsPath := List String

/-- Decimal digits of n, most significant first, with explicit fuel: the fuel
n + 1 always suffices since n strictly shrinks under division by ten. -/
def natDigitsAux : Nat → Nat → List Char
  | 0, _ => []
  | fuel + 1, n =>
      if n < 10 then [Nat.digitChar n]
      else natDigitsAux fuel (n / 10) ++ [Nat.digitChar (n % 10)]

/-- Decimal rendering of a counter, as in the format string of the source. -/
def natDigits (n : Nat) : List Char := natDigitsAux (n + 1) n

/-- Reads a decimal digit list back; a left inverse of natDigits. -/
def decodeDigits (cs : List Char) : Nat :=
  cs.foldl (fun a c => 10 * a + (c.toNat - 48)) 0

/-- Index of the last dot of the name, if any. -/
def lastDotIdx : List Char → Option Nat
  | [] => none
  | c :: rest =>
      match lastDotIdx rest with
      | some i => some (i + 1)
      | none => if c = '.' then some 0 else none

/-- Stem and suffix of a final path component, as pathlib defines them: the
suffix starts at the last dot when that dot is neither the first nor the
last character, and is empty otherwise. -/
def splitName (name : String) : List Char × List Char :=
  let cs := name.data
  match lastDotIdx cs with
  | some i => if 0 < i ∧ i + 1 < cs.length then (cs.take i, cs.drop i) else (cs, [])
  | none => (cs, [])

/-- The name with the version marker inserted between stem and suffix, as the
format string of the source builds it. -/
def versionedName (name : String) (c : Nat) : String :=
  ⟨(splitName name).1 ++ [' ', 'v'] ++ natDigits c ++ (splitName name).2⟩

/-- The counter-c candidate the while loop of get_next_version_filename
constructs: same parent, versioned final component. -/
def candidatePath (dest : FsPath) (c : Nat) : FsPath :=
  dest.dropLast ++ [versionedName (dest.getLast?.getD "") c]

/-- The while loop of get_next_version_filename: starting at counter c,
return the first counter whose candidate does not exist. The fuel is only a
termination device; it is always chosen provably large enough. -/
def findFree (fs : List FsPath) (dest : FsPath) : Nat → Nat → Nat
  | 0, c => c
  | fuel + 1, c => if candidatePath dest c ∈ fs then findFree fs dest fuel (c + 1) else c

/-- get_next_version_filename: return dest unchanged when it does not exist,
else the first candidate, for counters 2, 3, ..., that does not exist. Fuel
fs.length + 1 suffices: among that many distinct candidates one is free. -/
def get_next_version_filename (fs : List FsPath) (dest : FsPath) : FsPath :=
  if dest ∈ fs then candidatePath dest (findFree fs dest (fs.length + 1) 2) else dest

/-! ### The placement pipeline -/

/-- Split a folder string on slashes into path components, as the pathlib
slash operator does with a multi-component string. -/
def splitSlashAux : List Char → List Char → List String
  | [], acc => [⟨acc⟩]
  | '/' :: rest, acc => ⟨acc⟩ :: splitSlashAux rest []
  | c :: rest, acc => splitSlashAux rest (acc ++ [c])

def splitOnSlash (s : String) : List String := splitSlashAux s.data []

/-- The nonempty component prefixes of a path, shortest first: the chain of
directories mkdir(parents := true) creates. -/
def prefixList (p : FsPath) : List FsPath :=
  (List.range p.length).map (fun i => p.take (i + 1))

/-- mkdir(parents := true, exist_ok := true): every directory on the chain
exists afterwards; nothing is removed. -/
def mkdirParents (fs : List FsPath) (p : FsPath) : List FsPath :=
  (prefixList p).filter (fun q => decide (q ∉ fs)) ++ fs

/-- copy_file_with_versioning: make the category folder, resolve the
collision for folder-plus-filename, and copy there (the copy adds the
resolved destination to the filesystem). Returns the new filesystem and the
resolved destination. -/
def copy_file_with_versioning (fs : List FsPath) (srcName : String)
    (destFolder : String) (basePath : FsPath) : List FsPath × FsPath :=
  let folderPath := basePath ++ splitOnSlash destFolder
  let fs1 := mkdirParents fs folderPath
  let destFile := folderPath ++ [srcName]
  let finalDest := get_next_version_filename fs1 destFile
  (finalDest :: fs1, finalDest)

/-- copy_file_with_versioning under a failure model: fail says whether
shutil.copy2 raises, and with which message. On failure the directories made
beforehand persist but no file is written. -/
def copy_attempt (fail : Option String) (fs : List FsPath) (srcName : String)
    (destFolder : String) (basePath : FsPath) : List FsPath × Except String FsPath :=
  let folderPath := basePath ++ splitOnSlash destFolder
  let fs1 := mkdirParents fs folderPath
  let destFile := folderPath ++ [srcName]
  let finalDest := get_next_version_filename fs1 destFile
  match fail with
  | some msg => (fs1, Except.error msg)
  | none => (finalDest :: fs1, Except.ok finalDest)

/-- The mutable state of the copy phase: the destination filesystem, the
count of fully processed files, and the recorded (filename, message) error
pairs. -/
structure PipeState where
  fs : List FsPath
  processed : Nat
  errors : List (String × String)
deriving DecidableEq, Repr

/-- The body of the per-file try block: classify (as the classification map
of step 2 recorded), copy to the category folder, and, for a favorite, also
copy to the _FAVORITES subfolder; an exception in either copy is caught,
recorded as (filename, message), and processing continues. fail gives the
failure behaviour of the two copies (primary, favorites) of this file. -/
def processOne (fail : Bool → Option String) (basePath : FsPath)
    (st : PipeState) (name : String) : PipeState :=
  let destFolder := (classify_file (lowerStr name)).1
  match copy_attempt (fail false) st.fs name destFolder basePath with
  | (fs1, Except.error e) =>
      { st with fs := fs1, errors := st.errors ++ [(name, e)] }
  | (fs1, Except.ok _) =>
      if is_favorite name then
        let favFolder := destFolder ++ "/" ++ FAVORITES_SUBFOLDER
        match copy_attempt (fail true) fs1 name favFolder basePath with
        | (fs2, Except.error e) =>
            { st with fs := fs2, errors := st.errors ++ [(name, e)] }
        | (fs2, Except.ok _) =>
            { st with fs := fs2, processed := st.processed + 1 }
      else
        { st with fs := fs1, processed := st.processed + 1 }

/-- The copy phase over the discovered files in order. Batching in the
source only drives progress printing, so the flattened iteration is exact.
The oracle maps the position of a file and the copy kind (false for primary,
true for favorites) to the failure behaviour of that copy. -/
def runPipe (oracle : Nat → Bool → Option String) (basePath : FsPath) :
    Nat → PipeState → List String → PipeState
  | _, st, [] => st
  | i, st, f :: rest => runPipe oracle basePath (i + 1) (processOne (oracle i) basePath st f) rest

/-- The final report lines of sort_music that the claims mention. -/
structure RunReport where
  favoritesCount : Nat
  processed : Nat
  errorCount : Nat
deriving DecidableEq, Repr

/-- sort_music on already-scanned filenames: none when no files were found
(the run ends before the report); otherwise the favorites count is taken
during classification, before any copying, and the copy phase runs over all
files. -/
def sort_music (oracle : Nat → Bool → Option String) (basePath : FsPath)
    (initFs : List FsPath) (files : List String) : Option (RunReport × PipeState) :=
  if files.isEmpty then none
  else
    let favorites_count := files.countP (fun n => is_favorite n)
    let final := runPipe oracle basePath 0 { fs := initFs, processed := 0, errors := [] } files
    some ({ favoritesCount := favorites_count, processed := final.processed,
            errorCount := final.errors.length }, final)

/-- Ghost observer: how many files actually sit below a _FAVORITES directory
in the given filesystem. -/
def favFilesCount (fs : List FsPath) : Nat :=
  (fs.filter (fun p => decide (FAVORITES_SUBFOLDER ∈ p.dropLast))).length

/-! ### Lemmas on decimal rendering and candidate names -/

theorem natDigitsAux_congr :
    ∀ (n f g : Nat), n < f → n < g → natDigitsAux f n = natDigitsAux g n := by
  intro n
  induction n using Nat.strong_induction_on with
  | _ n ih =>
    intro f g hf hg
    cases f with
    | zero => omega
    | succ f =>
      cases g with
      | zero => omega
      | succ g =>
        by_cases h : n < 10
        · simp [natDigitsAux, h]
        · have hdiv : n / 10 < n := Nat.div_lt_self (by omega) (by omega)
          simp only [natDigitsAux, if_neg h]
          rw [ih (n / 10) hdiv f g (by omega) (by omega)]

theorem natDigits_rec (n : Nat) (h : ¬ n < 10) :
    natDigits n = natDigits (n / 10) ++ [Nat.digitChar (n % 10)] := by
  have hdiv : n / 10 < n := Nat.div_lt_self (by omega) (by omega)
  show natDigitsAux (n + 1) n = _
  rw [show n + 1 = n + 1 from rfl]
  simp only [natDigitsAux, if_neg h]
  rw [natDigitsAux_congr (n / 10) n (n / 10 + 1) (by omega) (by omega)]
  rfl

theorem digitChar_toNat (n : Nat) (h : n < 10) : (Nat.digitChar n).toNat = 48 + n := by
  interval_cases n <;> decide

theorem decodeDigits_natDigits : ∀ n : Nat, decodeDigits (natDigits n) = n := by
  intro n
  induction n using Nat.strong_induction_on with
  | _ n ih =>
    by_cases h : n < 10
    · have h1 : natDigits n = [Nat.digitChar n] := by simp [natDigits, natDigitsAux, h]
      rw [h1]
      simp [decodeDigits, digitChar_toNat n h]
    · have hdiv : n / 10 < n := Nat.div_lt_self (by omega) (by omega)
      rw [natDigits_rec n h]
      unfold decodeDigits
      rw [List.foldl_append]
      have hmod : n % 10 < 10 := Nat.mod_lt _ (by omega)
      have := ih (n / 10) hdiv
      unfold decodeDigits at this
      rw [this]
      simp [digitChar_toNat _ hmod]
      omega

theorem natDigits_inj {a b : Nat} (h : natDigits a = natDigits b) : a = b := by
  have := congrArg decodeDigits h
  rwa [decodeDigits_natDigits, decodeDigits_natDigits] at this

theorem versionedName_inj {name : String} {a b : Nat}
    (h : versionedName name a = versionedName name b) : a = b := by
  unfold versionedName at h
  have h1 : (splitName name).1 ++ [' ', 'v'] ++ natDigits a ++ (splitName name).2 =
      (splitName name).1 ++ [' ', 'v'] ++ natDigits b ++ (splitName name).2 :=
    congrArg String.data h
  have h2 := List.append_cancel_right h1
  have h3 := List.append_cancel_left h2
  exact natDigits_inj h3

theorem candidatePath_inj {dest : FsPath} {a b : Nat}
    (h : candidatePath dest a = candidatePath dest b) : a = b := by
  unfold candidatePath at h
  have h1 := List.append_cancel_left h
  simp only [List.cons.injEq, and_true] at h1
  exact versionedName_inj h1

theorem exists_free (fs : List FsPath) (dest : FsPath) :
    ∃ k, k < fs.length + 1 ∧ candidatePath dest (2 + k) ∉ fs := by
  by_contra hcon
  push_neg at hcon
  have hsub : ∀ a ∈ Finset.range (fs.length + 1),
      (fun k : Nat => candidatePath dest (2 + k)) a ∈ fs.toFinset := by
    intro a ha
    rw [List.mem_toFinset]
    exact hcon a (Finset.mem_range.mp ha)
  have hcard := Finset.card_le_card_of_injOn _ hsub
    (fun a _ b _ hab => by have := candidatePath_inj hab; omega)
  rw [Finset.card_range] at hcard
  have := fs.toFinset_card_le
  omega

theorem findFree_spec (fs : List FsPath) (dest : FsPath) :
    ∀ (fuel c : Nat), (∃ k, k < fuel ∧ candidatePath dest (c + k) ∉ fs) →
      c ≤ findFree fs dest fuel c ∧
      candidatePath dest (findFree fs dest fuel c) ∉ fs ∧
      ∀ m, c ≤ m → m < findFree fs dest fuel c → candidatePath dest m ∈ fs := by
  intro fuel
  induction fuel with
  | zero =>
    rintro c ⟨k, hk, -⟩
    omega
  | succ fuel ih =>
    rintro c ⟨k, hk, hfree⟩
    by_cases hmem : candidatePath dest c ∈ fs
    · have hk0 : k ≠ 0 := by
        rintro rfl
        exact hfree hmem
      have hnext : ∃ q, q < fuel ∧ candidatePath dest (c + 1 + q) ∉ fs :=
        ⟨k - 1, by omega, by rw [show c + 1 + (k - 1) = c + k by omega]; exact hfree⟩
      obtain ⟨h1, h2, h3⟩ := ih (c + 1) hnext
      have heq : findFree fs dest (fuel + 1) c = findFree fs dest fuel (c + 1) := by
        simp [findFree, hmem]
      refine ⟨by omega, by rw [heq]; exact h2, ?_⟩
      intro m hcm hm
      rw [heq] at hm
      rcases Nat.eq_or_lt_of_le hcm with heqm | hlt
      · rw [← heqm]; exact hmem
      · exact h3 m (by omega) hm
    · have heq : findFree fs dest (fuel + 1) c = c := by simp [findFree, hmem]
      rw [heq]
      exact ⟨Nat.le_refl _, hmem, fun m h1 h2 => by omega⟩

/-- The full functional specification of get_next_version_filename: unchanged
when free, else the least-counter free candidate from 2 up; the result never
exists in the filesystem at the moment of the check. -/
theorem get_next_version_spec (fs : List FsPath) (dest : FsPath) :
    (dest ∉ fs → get_next_version_filename fs dest = dest) ∧
    (dest ∈ fs → ∃ c, 2 ≤ c ∧ get_next_version_filename fs dest = candidatePath dest c ∧
        candidatePath dest c ∉ fs ∧ ∀ d, 2 ≤ d → d < c → candidatePath dest d ∈ fs) ∧
    get_next_version_filename fs dest ∉ fs := by
  obtain ⟨k, hk, hfree⟩ := exists_free fs dest
  obtain ⟨h1, h2, h3⟩ := findFree_spec fs dest (fs.length + 1) 2 ⟨k, hk, hfree⟩
  by_cases hmem : dest ∈ fs
  · refine ⟨fun h => absurd hmem h, fun _ => ⟨findFree fs dest (fs.length + 1) 2, h1,
      by simp [get_next_version_filename, hmem], h2, fun d hd hdc => h3 d hd hdc⟩, ?_⟩
    simp only [get_next_version_filename, if_pos hmem]
    exact h2
  · exact ⟨fun _ => by simp [get_next_version_filename, hmem],
      fun h => absurd h hmem, by simp only [get_next_version_filename, if_neg hmem]; exact hmem⟩

/-! ### Lemmas on path shapes, folder splitting and directory creation -/

theorem candidatePath_concat (P : FsPath) (n : String) (c : Nat) :
    candidatePath (P ++ [n]) c = P ++ [versionedName n c] := by
  simp [candidatePath, List.dropLast_concat, List.getLast?_concat]

/-- The resolved destination keeps the parent folder and either keeps the
filename or carries a version-c name, c at least 2. -/
theorem get_next_version_concat_shape (fs : List FsPath) (P : FsPath) (n : String) :
    get_next_version_filename fs (P ++ [n]) = P ++ [n] ∨
    ∃ c, 2 ≤ c ∧ get_next_version_filename fs (P ++ [n]) = P ++ [versionedName n c] := by
  obtain ⟨hfree, hcoll, -⟩ := get_next_version_spec fs (P ++ [n])
  by_cases hmem : (P ++ [n]) ∈ fs
  · obtain ⟨c, hc2, heq, -, -⟩ := hcoll hmem
    exact Or.inr ⟨c, hc2, by rw [heq, candidatePath_concat]⟩
  · exact Or.inl (hfree hmem)

theorem mem_mkdirParents (fs : List FsPath) (p x : FsPath) (h : x ∈ fs) :
    x ∈ mkdirParents fs p := by
  unfold mkdirParents
  exact List.mem_append_right _ h

theorem splitSlashAux_append (l1 l2 : List Char) :
    ∀ acc, splitSlashAux (l1 ++ '/' :: l2) acc =
      splitSlashAux l1 acc ++ splitSlashAux l2 [] := by
  induction l1 with
  | nil => intro acc; simp [splitSlashAux]
  | cons c rest ih =>
    intro acc
    by_cases hc : c = '/'
    · subst hc
      show splitSlashAux ('/' :: (rest ++ '/' :: l2)) acc = _
      rw [show splitSlashAux ('/' :: (rest ++ '/' :: l2)) acc =
        (⟨acc⟩ : String) :: splitSlashAux (rest ++ '/' :: l2) [] from rfl]
      rw [ih []]
      rfl
    · rw [List.cons_append, splitSlashAux.eq_def]
      split
      · simp_all
      · rename_i heq
        rw [List.cons.injEq] at heq
        exact absurd heq.1 hc
      · rename_i c2 rest2 heq
        rw [List.cons.injEq] at heq
        obtain ⟨hc2, hrest⟩ := heq
        subst hc2
        rw [← hrest, ih]
        conv_rhs => rw [splitSlashAux.eq_def]
        split
        · simp_all
        · rename_i heq2
          rw [List.cons.injEq] at heq2
          exact absurd heq2.1 hc
        · rename_i c3 rest3 heq2
          rw [List.cons.injEq] at heq2
          rw [heq2.1, heq2.2]

theorem splitOnSlash_append (a b : String) :
    splitOnSlash (a ++ "/" ++ b) = splitOnSlash a ++ splitOnSlash b := by
  unfold splitOnSlash
  have hdata : (a ++ "/" ++ b).data = a.data ++ '/' :: b.data := by
    rw [String.data_append, String.data_append]
    simp
  rw [hdata, splitSlashAux_append]

/-! ### Lemmas on the classifier -/

/-- The rule table is already listed in ascending priority order, so the
stable sort leaves it unchanged. -/
theorem sortRules_eq : sortRules GENRE_RULES = GENRE_RULES := by decide

/-- Priorities are nondecreasing along the declaration order. -/
theorem rules_priority_sorted :
    List.Pairwise (fun a b => a.priority ≤ b.priority) GENRE_RULES := by decide

/-- No rule of the table points at the fallback folder. -/
theorem rules_folder_ne_fallback :
    ∀ r ∈ GENRE_RULES, r.folder ≠ UNCATEGORIZED_FOLDER := by decide

theorem firstMatch_eq_none_iff (l : List Rule) (f : String) :
    firstMatch l f = none ↔ ∀ r ∈ l, ruleMatches r f = false := by
  induction l with
  | nil => simp [firstMatch]
  | cons r rs ih =>
    by_cases h : ruleMatches r f
    · simp [firstMatch, h]
    · simp only [firstMatch, if_neg h, ih, List.mem_cons]
      constructor
      · intro hall s hs
        rcases hs with hs | hs
        · rw [hs]; exact Bool.eq_false_iff.mpr h
        · exact hall s hs
      · intro hall s hs
        exact hall s (Or.inr hs)

theorem firstMatch_some_spec (l : List Rule) (f : String) (r : Rule)
    (h : firstMatch l f = some r) :
    ∃ k, k < l.length ∧ l.getD k defaultRule = r ∧ ruleMatches r f = true ∧
      ∀ m, m < k → ruleMatches (l.getD m defaultRule) f = false := by
  induction l generalizing r with
  | nil => simp [firstMatch] at h
  | cons x xs ih =>
    by_cases hx : ruleMatches x f
    · rw [firstMatch, if_pos hx, Option.some.injEq] at h
      subst h
      exact ⟨0, by simp, rfl, hx, fun m hm => by omega⟩
    · rw [firstMatch, if_neg hx] at h
      obtain ⟨k, hk, hget, hmatch, hbefore⟩ := ih r h
      refine ⟨k + 1, by simpa using hk, by simpa using hget, hmatch, ?_⟩
      intro m hm
      cases m with
      | zero => simpa using Bool.eq_false_iff.mpr hx
      | succ m' =>
        rw [List.getD_cons_succ]
        exact hbefore m' (by omega)

/-! ### Lemmas on the placement pipeline -/

theorem processOne_count (fail : Bool → Option String) (basePath : FsPath)
    (st : PipeState) (name : String) :
    (processOne fail basePath st name).processed +
        (processOne fail basePath st name).errors.length
      = st.processed + st.errors.length + 1 := by
  unfold processOne copy_attempt
  cases hf : fail false with
  | some e => simp; omega
  | none =>
    by_cases hfav : is_favorite name
    · cases ht : fail true with
      | some e => simp [hfav]; omega
      | none => simp [hfav]; omega
    · simp [hfav]; omega

theorem processOne_errors_shape (fail : Bool → Option String) (basePath : FsPath)
    (st : PipeState) (name : String) :
    (processOne fail basePath st name).errors = st.errors ∨
    ∃ e, (processOne fail basePath st name).errors = st.errors ++ [(name, e)] := by
  unfold processOne copy_attempt
  cases hf : fail false with
  | some e => exact Or.inr ⟨e, by simp⟩
  | none =>
    by_cases hfav : is_favorite name
    · cases ht : fail true with
      | some e => exact Or.inr ⟨e, by simp [hfav]⟩
      | none => exact Or.inl (by simp [hfav])
    · exact Or.inl (by simp [hfav])

theorem processOne_error_record (fail : Bool → Option String) (basePath : FsPath)
    (st : PipeState) (name : String) (e : String) :
    (fail false = some e →
      (processOne fail basePath st name).errors = st.errors ++ [(name, e)] ∧
      (processOne fail basePath st name).processed = st.processed) ∧
    (fail false = none → is_favorite name = true → fail true = some e →
      (processOne fail basePath st name).errors = st.errors ++ [(name, e)] ∧
      (processOne fail basePath st name).processed = st.processed) := by
  constructor
  · intro hf
    unfold processOne copy_attempt
    rw [hf]
    exact ⟨rfl, rfl⟩
  · intro hf hfav ht
    unfold processOne copy_attempt
    rw [hf, ht]
    simp [hfav]

theorem processOne_fs_mono (fail : Bool → Option String) (basePath : FsPath)
    (st : PipeState) (name : String) :
    ∀ p ∈ st.fs, p ∈ (processOne fail basePath st name).fs := by
  intro p hp
  unfold processOne copy_attempt
  cases hf : fail false with
  | some e => exact mem_mkdirParents _ _ _ hp
  | none =>
    by_cases hfav : is_favorite name
    · cases ht : fail true with
      | some e =>
        simp only [hfav, if_true]
        exact mem_mkdirParents _ _ _ (List.mem_cons_of_mem _ (mem_mkdirParents _ _ _ hp))
      | none =>
        simp only [hfav, if_true]
        exact List.mem_cons_of_mem _
          (mem_mkdirParents _ _ _ (List.mem_cons_of_mem _ (mem_mkdirParents _ _ _ hp)))
    · simp only [hfav, if_false]
      exact List.mem_cons_of_mem _ (mem_mkdirParents _ _ _ hp)

theorem runPipe_count (oracle : Nat → Bool → Option String) (basePath : FsPath) :
    ∀ (files : List String) (i : Nat) (st : PipeState),
      (runPipe oracle basePath i st files).processed +
          (runPipe oracle basePath i st files).errors.length
        = st.processed + st.errors.length + files.length := by
  intro files
  induction files with
  | nil => intro i st; simp [runPipe]
  | cons f rest ih =>
    intro i st
    rw [runPipe, ih]
    have := processOne_count (oracle i) basePath st f
    simp only [List.length_cons]
    omega

theorem runPipe_errors_extend (oracle : Nat → Bool → Option String) (basePath : FsPath) :
    ∀ (files : List String) (i : Nat) (st : PipeState),
      ∃ tail, (runPipe oracle basePath i st files).errors = st.errors ++ tail := by
  intro files
  induction files with
  | nil => intro i st; exact ⟨[], by simp [runPipe]⟩
  | cons f rest ih =>
    intro i st
    rw [runPipe]
    obtain ⟨tail, htail⟩ := ih (i + 1) (processOne (oracle i) basePath st f)
    rcases processOne_errors_shape (oracle i) basePath st f with hsh | ⟨e, hsh⟩
    · exact ⟨tail, by rw [htail, hsh]⟩
    · exact ⟨(f, e) :: tail, by rw [htail, hsh, List.append_assoc]; rfl⟩

theorem runPipe_fs_mono (oracle : Nat → Bool → Option String) (basePath : FsPath) :
    ∀ (files : List String) (i : Nat) (st : PipeState) (p : FsPath),
      p ∈ st.fs → p ∈ (runPipe oracle basePath i st files).fs := by
  intro files
  induction files with
  | nil => intro i st p hp; simpa [runPipe] using hp
  | cons f rest ih =>
    intro i st p hp
    rw [runPipe]
    exact ih (i + 1) _ p (processOne_fs_mono (oracle i) basePath st f p hp)

theorem isPrefixOf_triple (cs : List Char) :
    List.isPrefixOf ['+', '+', '+'] cs = true ↔ ∃ t, cs = '+' :: '+' :: '+' :: t := by
  rcases cs with _ | ⟨a, _ | ⟨b, _ | ⟨c, t⟩⟩⟩
  · simp
  · rw [List.isPrefixOf_cons₂]
    simp
  · rw [List.isPrefixOf_cons₂, List.isPrefixOf_cons₂]
    simp
  · rw [List.isPrefixOf_cons₂, List.isPrefixOf_cons₂, List.isPrefixOf_cons₂]
    constructor
    · intro h
      simp only [Bool.and_eq_true, beq_iff_eq, List.isPrefixOf_nil_left, and_true] at h
      exact ⟨t, by rw [← h.1, ← h.2.1, ← h.2.2]⟩
    · rintro ⟨t2, ht⟩
      injection ht with h1 ht
      injection ht with h2 ht
      injection ht with h3 ht
      rw [h1, h2, h3]
      simp

theorem splitOnSlash_favorites : splitOnSlash FAVORITES_SUBFOLDER = [FAVORITES_SUBFOLDER] := by
  decide

/-- On a favorite file whose two copies both succeed, the try block makes
the category folder, copies to the resolved primary destination, makes the
_FAVORITES folder, copies to the independently resolved favorites
destination, and counts the file processed. -/
theorem processOne_favorite_eq (fail : Bool → Option String) (basePath : FsPath)
    (st : PipeState) (name : String)
    (hfav : is_favorite name = true) (hp : fail false = none) (hf : fail true = none) :
    processOne fail basePath st name =
      { st with
        fs :=
          get_next_version_filename
              (mkdirParents
                ((get_next_version_filename
                    (mkdirParents st.fs
                      (basePath ++ splitOnSlash (classify_file (lowerStr name)).1))
                    ((basePath ++ splitOnSlash (classify_file (lowerStr name)).1) ++ [name])) ::
                  mkdirParents st.fs
                    (basePath ++ splitOnSlash (classify_file (lowerStr name)).1))
                ((basePath ++ splitOnSlash (classify_file (lowerStr name)).1) ++
                  [FAVORITES_SUBFOLDER]))
              ((basePath ++ splitOnSlash (classify_file (lowerStr name)).1) ++
                [FAVORITES_SUBFOLDER] ++ [name]) ::
            mkdirParents
              ((get_next_version_filename
                  (mkdirParents st.fs
                    (basePath ++ splitOnSlash (classify_file (lowerStr name)).1))
                  ((basePath ++ splitOnSlash (classify_file (lowerStr name)).1) ++ [name])) ::
                mkdirParents st.fs
                  (basePath ++ splitOnSlash (classify_file (lowerStr name)).1))
              ((basePath ++ splitOnSlash (classify_file (lowerStr name)).1) ++
                [FAVORITES_SUBFOLDER]),
        processed := st.processed + 1 } := by
  unfold processOne copy_attempt
  rw [hp, hf]
  have hsplit : splitOnSlash ((classify_file (lowerStr name)).1 ++ "/" ++ FAVORITES_SUBFOLDER) =
      splitOnSlash (classify_file (lowerStr name)).1 ++ [FAVORITES_SUBFOLDER] := by
    rw [splitOnSlash_append, splitOnSlash_favorites]
  simp [hfav, hsplit, List.append_assoc]

/-! ### The claims -/

/-- C8: is_favorite returns true exactly on filenames that begin with the
three-character marker +++, case-sensitively and as a prefix only, as the
three quoted examples illustrate. -/
theorem claim8_favorite_marker :
    (∀ s : String, is_favorite s = true ↔ ∃ t : List Char, s.data = '+' :: '+' :: '+' :: t) ∧
    is_favorite "+++Track.wav" = true ∧
    is_favorite "Track+++.wav" = false ∧
    is_favorite "++Track.wav" = false := by
  refine ⟨?_, by decide, by decide, by decide⟩
  intro s
  have hdef : is_favorite s = List.isPrefixOf ['+', '+', '+'] s.data := rfl
  rw [hdef, isPrefixOf_triple]

/-- C8 witness: the characterization applied at a concrete favorite name. -/
theorem claim8_favorite_marker_witness :
    ∃ t : List Char, ("+++x" : String).data = '+' :: '+' :: '+' :: t :=
  (claim8_favorite_marker.1 "+++x").mp (by decide)

/-- C2: get_next_version_filename returns the desired path unchanged when no
file or directory exists there; otherwise it returns the first candidate
with version counter 2, 3, ... whose path does not exist; in every case the
returned path does not exist at the moment of the check. -/
theorem claim2_resolve_collision (fs : List FsPath) (dest : FsPath) :
    (dest ∉ fs → get_next_version_filename fs dest = dest) ∧
    (dest ∈ fs → ∃ c, 2 ≤ c ∧ get_next_version_filename fs dest = candidatePath dest c ∧
        candidatePath dest c ∉ fs ∧ ∀ d, 2 ≤ d → d < c → candidatePath dest d ∈ fs) ∧
    get_next_version_filename fs dest ∉ fs :=
  get_next_version_spec fs dest

/-- C2 witness: with a.wav and a v2.wav existing, the theorem applies and
the resolver concretely yields a v3.wav, which is free. -/
theorem claim2_resolve_collision_witness :
    (["out", "a.wav"] : FsPath) ∈ [["out", "a.wav"], ["out", "a v2.wav"]] ∧
    (∃ c, 2 ≤ c ∧
      get_next_version_filename [["out", "a.wav"], ["out", "a v2.wav"]] ["out", "a.wav"] =
        candidatePath ["out", "a.wav"] c ∧
      candidatePath ["out", "a.wav"] c ∉ [["out", "a.wav"], ["out", "a v2.wav"]] ∧
      ∀ d, 2 ≤ d → d < c →
        candidatePath ["out", "a.wav"] d ∈ [["out", "a.wav"], ["out", "a v2.wav"]]) ∧
    get_next_version_filename [["out", "a.wav"], ["out", "a v2.wav"]] ["out", "a.wav"] =
      ["out", "a v3.wav"] :=
  ⟨by decide,
   (claim2_resolve_collision [["out", "a.wav"], ["out", "a v2.wav"]] ["out", "a.wav"]).2.1
     (by decide),
   by decide⟩

/-- C9: the pipeline never sanitizes names: the destination filename of a
copy equals the source filename exactly, apart from a possible version
insertion; concretely a name full of characters sanitize_filename would
replace is copied verbatim, unequal to its sanitized form. -/
theorem claim9_no_sanitize_applied :
    (∀ (fs : List FsPath) (name destFolder : String) (basePath : FsPath),
      (copy_file_with_versioning fs name destFolder basePath).2 =
          (basePath ++ splitOnSlash destFolder) ++ [name] ∨
      ∃ c, 2 ≤ c ∧ (copy_file_with_versioning fs name destFolder basePath).2 =
          (basePath ++ splitOnSlash destFolder) ++ [versionedName name c]) ∧
    (copy_file_with_versioning [] "a?b<c>.wav" "99_Uncategorized/Other" ["out"]).2 =
      ["out", "99_Uncategorized", "Other", "a?b<c>.wav"] ∧
    sanitize_filename "a?b<c>.wav" ≠ "a?b<c>.wav" := by
  refine ⟨?_, by decide, by decide⟩
  intro fs name destFolder basePath
  simpa [copy_file_with_versioning] using
    get_next_version_concat_shape
      (mkdirParents fs (basePath ++ splitOnSlash destFolder))
      (basePath ++ splitOnSlash destFolder) name

/-- C9 witness: the name-preservation disjunction applied at a concrete
copy. -/
theorem claim9_no_sanitize_applied_witness :
    (copy_file_with_versioning [] "t.wav" "x" ["o"]).2 =
        (["o"] ++ splitOnSlash "x") ++ ["t.wav"] ∨
    ∃ c, 2 ≤ c ∧ (copy_file_with_versioning [] "t.wav" "x" ["o"]).2 =
        (["o"] ++ splitOnSlash "x") ++ [versionedName "t.wav" c] :=
  claim9_no_sanitize_applied.1 [] "t.wav" "x" ["o"]

/-- C4: classify_file is a total function; it returns the fallback category
exactly when no rule pattern matches, and the empty filename yields the
fallback with the sentinel priority. -/
theorem claim4_total_and_fallback :
    (∀ f : String, ((classify_file f).1 = UNCATEGORIZED_FOLDER ↔
        ∀ r ∈ GENRE_RULES, ruleMatches r f = false)) ∧
    classify_file "" = (UNCATEGORIZED_FOLDER, 999) := by
  constructor
  · intro f
    constructor
    · intro h
      rw [← firstMatch_eq_none_iff]
      cases hfm : firstMatch GENRE_RULES f with
      | none => rfl
      | some r =>
        obtain ⟨k, hk, hget, hmatch, -⟩ := firstMatch_some_spec _ _ _ hfm
        have hmem : r ∈ GENRE_RULES := by
          rw [← hget, List.getD_eq_getElem _ _ hk]
          exact List.getElem_mem ..
        have hcl : (classify_file f).1 = r.folder := by
          simp [classify_file, sortRules_eq, hfm]
        rw [hcl] at h
        exact absurd h (rules_folder_ne_fallback r hmem)
    · intro hall
      have hnone : firstMatch GENRE_RULES f = none := (firstMatch_eq_none_iff _ _).mpr hall
      simp [classify_file, sortRules_eq, hnone]
  · decide

/-- C4 witness: the characterization applied at a filename no pattern
matches, and at the empty filename via the proved equation. -/
theorem claim4_total_and_fallback_witness :
    (classify_file "zzz.wav").1 = UNCATEGORIZED_FOLDER ∧
    classify_file "" = (UNCATEGORIZED_FOLDER, 999) :=
  ⟨(claim4_total_and_fallback.1 "zzz.wav").mpr (by decide), claim4_total_and_fallback.2⟩

/-- C1: when a filename matches two or more rules, classify_file returns the
folder and priority of the matching rule minimizing first the priority
number, then the declaration index: first-match-wins over the
priority-sorted, declaration-ordered table, never influenced by match count
or pattern length. -/
theorem claim1_first_match_wins (f : String) (i j : Nat)
    (hi : i < GENRE_RULES.length) (hj : j < GENRE_RULES.length) (hij : i ≠ j)
    (hmi : ruleMatches (GENRE_RULES.getD i defaultRule) f = true)
    (hmj : ruleMatches (GENRE_RULES.getD j defaultRule) f = true) :
    ∃ k, k < GENRE_RULES.length ∧
      ruleMatches (GENRE_RULES.getD k defaultRule) f = true ∧
      classify_file f =
        ((GENRE_RULES.getD k defaultRule).folder, (GENRE_RULES.getD k defaultRule).priority) ∧
      ∀ m, m < GENRE_RULES.length → ruleMatches (GENRE_RULES.getD m defaultRule) f = true →
        (GENRE_RULES.getD k defaultRule).priority < (GENRE_RULES.getD m defaultRule).priority ∨
        ((GENRE_RULES.getD k defaultRule).priority = (GENRE_RULES.getD m defaultRule).priority
          ∧ k ≤ m) := by
  cases hfm : firstMatch GENRE_RULES f with
  | none =>
    rw [firstMatch_eq_none_iff] at hfm
    have hmem : GENRE_RULES.getD i defaultRule ∈ GENRE_RULES := by
      rw [List.getD_eq_getElem _ _ hi]
      exact List.getElem_mem ..
    rw [hfm _ hmem] at hmi
    cases hmi
  | some r =>
    obtain ⟨k, hk, hget, hmatch, hbefore⟩ := firstMatch_some_spec _ _ _ hfm
    refine ⟨k, hk, by rw [hget]; exact hmatch, ?_, ?_⟩
    · rw [hget]
      simp [classify_file, sortRules_eq, hfm]
    · intro m hm hmm
      by_cases hmk : m < k
      · rw [hbefore m hmk] at hmm
        cases hmm
      · have hkm : k ≤ m := by omega
        rcases Nat.eq_or_lt_of_le hkm with heq | hlt
        · subst heq
          exact Or.inr ⟨rfl, Nat.le_refl k⟩
        · have hpair := List.pairwise_iff_get.mp rules_priority_sorted ⟨k, hk⟩ ⟨m, hm⟩ hlt
          rw [List.getD_eq_getElem _ _ hk, List.getD_eq_getElem _ _ hm]
          simp only [List.get_eq_getElem] at hpair
          rcases Nat.eq_or_lt_of_le hpair with heqp | hltp
          · exact Or.inr ⟨heqp, by omega⟩
          · exact Or.inl hltp

/-- C1 witness: melodic techno remix.wav matches the remixes, techno and
melodic rules; the theorem applies at declaration indices 4 and 6. -/
theorem claim1_first_match_wins_witness :
    (4 < GENRE_RULES.length ∧ 6 < GENRE_RULES.length ∧
      ruleMatches (GENRE_RULES.getD 4 defaultRule) "melodic techno remix.wav" = true ∧
      ruleMatches (GENRE_RULES.getD 6 defaultRule) "melodic techno remix.wav" = true) ∧
    (∃ k, k < GENRE_RULES.length ∧
      ruleMatches (GENRE_RULES.getD k defaultRule) "melodic techno remix.wav" = true ∧
      classify_file "melodic techno remix.wav" =
        ((GENRE_RULES.getD k defaultRule).folder, (GENRE_RULES.getD k defaultRule).priority) ∧
      ∀ m, m < GENRE_RULES.length →
        ruleMatches (GENRE_RULES.getD m defaultRule) "melodic techno remix.wav" = true →
        (GENRE_RULES.getD k defaultRule).priority < (GENRE_RULES.getD m defaultRule).priority ∨
        ((GENRE_RULES.getD k defaultRule).priority = (GENRE_RULES.getD m defaultRule).priority
          ∧ k ≤ m)) :=
  ⟨⟨by decide, by decide, by decide, by decide⟩,
   claim1_first_match_wins "melodic techno remix.wav" 4 6 (by decide) (by decide)
     (by decide) (by decide) (by decide)⟩

/-- C5: a favorite input file gets two independent full copies, one at
outputRoot slash category slash filename and one under the _FAVORITES
subfolder of that category, each with its own collision resolution against
the filesystem it actually sees; both destinations are fresh, mutually
distinct paths, nothing previously present is removed, and the file counts
as processed once with no error recorded. -/
theorem claim5_favorite_double_copy (fail : Bool → Option String) (basePath : FsPath)
    (st : PipeState) (name : String)
    (hfav : is_favorite name = true) (hp : fail false = none) (hf : fail true = none) :
    ∃ d1 d2 : FsPath,
      d1 = get_next_version_filename
        (mkdirParents st.fs (basePath ++ splitOnSlash (classify_file (lowerStr name)).1))
        ((basePath ++ splitOnSlash (classify_file (lowerStr name)).1) ++ [name]) ∧
      d2 = get_next_version_filename
        (mkdirParents
          (d1 :: mkdirParents st.fs
            (basePath ++ splitOnSlash (classify_file (lowerStr name)).1))
          ((basePath ++ splitOnSlash (classify_file (lowerStr name)).1) ++
            [FAVORITES_SUBFOLDER]))
        ((basePath ++ splitOnSlash (classify_file (lowerStr name)).1) ++
          [FAVORITES_SUBFOLDER] ++ [name]) ∧
      d1 ∈ (processOne fail basePath st name).fs ∧
      d2 ∈ (processOne fail basePath st name).fs ∧
      d1 ∉ mkdirParents st.fs (basePath ++ splitOnSlash (classify_file (lowerStr name)).1) ∧
      d1 ∉ st.fs ∧
      d2 ∉ mkdirParents
        (d1 :: mkdirParents st.fs (basePath ++ splitOnSlash (classify_file (lowerStr name)).1))
        ((basePath ++ splitOnSlash (classify_file (lowerStr name)).1) ++
          [FAVORITES_SUBFOLDER]) ∧
      d1 ≠ d2 ∧
      (∀ p ∈ st.fs, p ∈ (processOne fail basePath st name).fs) ∧
      (processOne fail basePath st name).processed = st.processed + 1 ∧
      (processOne fail basePath st name).errors = st.errors := by
  have heq := processOne_favorite_eq fail basePath st name hfav hp hf
  set catPath := basePath ++ splitOnSlash (classify_file (lowerStr name)).1 with hcat
  set fs1 := mkdirParents st.fs catPath with hfs1
  set d1 := get_next_version_filename fs1 (catPath ++ [name]) with hd1
  set fs2 := mkdirParents (d1 :: fs1) (catPath ++ [FAVORITES_SUBFOLDER]) with hfs2
  set d2 := get_next_version_filename fs2 (catPath ++ [FAVORITES_SUBFOLDER] ++ [name]) with hd2
  have hfs : (processOne fail basePath st name).fs = d2 :: fs2 := by rw [heq]
  have hd1mem : d1 ∈ (processOne fail basePath st name).fs := by
    rw [hfs]
    exact List.mem_cons_of_mem _ (mem_mkdirParents _ _ _ (List.mem_cons_self _ _))
  have hd1free : d1 ∉ fs1 := (get_next_version_spec fs1 (catPath ++ [name])).2.2
  have hd2free : d2 ∉ fs2 := (get_next_version_spec fs2 (catPath ++ [FAVORITES_SUBFOLDER] ++ [name])).2.2
  have hlen1 : d1.length = catPath.length + 1 := by
    rcases get_next_version_concat_shape fs1 catPath name with hsh | ⟨c, -, hsh⟩ <;>
      rw [hd1, hsh] <;> simp
  have hlen2 : d2.length = catPath.length + 2 := by
    rcases get_next_version_concat_shape fs2 (catPath ++ [FAVORITES_SUBFOLDER]) name with
      hsh | ⟨c, -, hsh⟩ <;>
      rw [hd2, List.append_assoc] at * <;> rw [hsh] <;> simp
  refine ⟨d1, d2, rfl, rfl, hd1mem, ?_, hd1free, ?_, hd2free, ?_, ?_, ?_, ?_⟩
  · rw [hfs]
    exact List.mem_cons_self _ _
  · intro hmem
    exact hd1free (mem_mkdirParents _ _ _ hmem)
  · intro hdd
    rw [hdd] at hlen1
    omega
  · intro p hp2
    rw [hfs]
    exact List.mem_cons_of_mem _
      (mem_mkdirParents _ _ _ (List.mem_cons_of_mem _ (mem_mkdirParents _ _ _ hp2)))
  · rw [heq]
  · rw [heq]

/-- C5 witness: the double copy theorem applied to the favorite +++a.wav
with an empty output tree and no failures. -/
theorem claim5_favorite_double_copy_witness :
    is_favorite "+++a.wav" = true ∧
    ∃ d1 d2 : FsPath,
      d1 = get_next_version_filename
        (mkdirParents [] (["out"] ++ splitOnSlash (classify_file (lowerStr "+++a.wav")).1))
        ((["out"] ++ splitOnSlash (classify_file (lowerStr "+++a.wav")).1) ++ ["+++a.wav"]) ∧
      d2 = get_next_version_filename
        (mkdirParents
          (d1 :: mkdirParents []
            (["out"] ++ splitOnSlash (classify_file (lowerStr "+++a.wav")).1))
          ((["out"] ++ splitOnSlash (classify_file (lowerStr "+++a.wav")).1) ++
            [FAVORITES_SUBFOLDER]))
        ((["out"] ++ splitOnSlash (classify_file (lowerStr "+++a.wav")).1) ++
          [FAVORITES_SUBFOLDER] ++ ["+++a.wav"]) ∧
      d1 ∈ (processOne (fun _ => none) ["out"] ⟨[], 0, []⟩ "+++a.wav").fs ∧
      d2 ∈ (processOne (fun _ => none) ["out"] ⟨[], 0, []⟩ "+++a.wav").fs ∧
      d1 ∉ mkdirParents [] (["out"] ++ splitOnSlash (classify_file (lowerStr "+++a.wav")).1) ∧
      d1 ∉ ([] : List FsPath) ∧
      d2 ∉ mkdirParents
        (d1 :: mkdirParents [] (["out"] ++ splitOnSlash (classify_file (lowerStr "+++a.wav")).1))
        ((["out"] ++ splitOnSlash (classify_file (lowerStr "+++a.wav")).1) ++
          [FAVORITES_SUBFOLDER]) ∧
      d1 ≠ d2 ∧
      (∀ p ∈ ([] : List FsPath), p ∈ (processOne (fun _ => none) ["out"] ⟨[], 0, []⟩ "+++a.wav").fs) ∧
      (processOne (fun _ => none) ["out"] ⟨[], 0, []⟩ "+++a.wav").processed = 0 + 1 ∧
      (processOne (fun _ => none) ["out"] ⟨[], 0, []⟩ "+++a.wav").errors = [] :=
  ⟨by decide, claim5_favorite_double_copy (fun _ => none) ["out"] ⟨[], 0, []⟩ "+++a.wav"
    (by decide) rfl rfl⟩

/-- C3 counterexample: the rule table has a separate atmospheric melodic
category, but Melodic Dream.wav is not classified there: the ethereal rule,
declared earlier at the same priority, matches the keyword dream first. -/
theorem claim3_counterexample :
    (∃ r ∈ GENRE_RULES, r.name = "atmospheric_melodic" ∧
      r.folder = "02_Atmospheric_Electronic/Melodic") ∧
    (classify_file (lowerStr "Melodic Dream.wav")).1 = "02_Atmospheric_Electronic/Ethereal" ∧
    (classify_file (lowerStr "Melodic Dream.wav")).1 ≠ "02_Atmospheric_Electronic/Melodic" := by
  decide

/-- C3 as amended: on the three-file scenario, Melodic Dream.wav goes to the
atmospheric ethereal category (via the keyword dream), Techno Night.wav to
the electronic techno category, and the favorite +++Pop Anthem.wav to the
pop category plus a duplicate under its _FAVORITES subfolder; the report
counts one favorite and three processed files with no errors. -/
theorem claim3_end_to_end :
    classify_file (lowerStr "Melodic Dream.wav") = ("02_Atmospheric_Electronic/Ethereal", 4) ∧
    classify_file (lowerStr "Techno Night.wav") = ("01_Electronic_Dance/Techno", 3) ∧
    classify_file (lowerStr "+++Pop Anthem.wav") = ("04_Pop_Mainstream/Pop", 5) ∧
    is_favorite "+++Pop Anthem.wav" = true ∧
    is_favorite "Melodic Dream.wav" = false ∧
    is_favorite "Techno Night.wav" = false ∧
    (["SORTED_MUSIC", "02_Atmospheric_Electronic", "Ethereal", "Melodic Dream.wav"] : FsPath) ∈
      (runPipe (fun _ _ => none) ["SORTED_MUSIC"] 0 ⟨[], 0, []⟩
        ["Melodic Dream.wav", "Techno Night.wav", "+++Pop Anthem.wav"]).fs ∧
    (["SORTED_MUSIC", "01_Electronic_Dance", "Techno", "Techno Night.wav"] : FsPath) ∈
      (runPipe (fun _ _ => none) ["SORTED_MUSIC"] 0 ⟨[], 0, []⟩
        ["Melodic Dream.wav", "Techno Night.wav", "+++Pop Anthem.wav"]).fs ∧
    (["SORTED_MUSIC", "04_Pop_Mainstream", "Pop", "+++Pop Anthem.wav"] : FsPath) ∈
      (runPipe (fun _ _ => none) ["SORTED_MUSIC"] 0 ⟨[], 0, []⟩
        ["Melodic Dream.wav", "Techno Night.wav", "+++Pop Anthem.wav"]).fs ∧
    (["SORTED_MUSIC", "04_Pop_Mainstream", "Pop", "_FAVORITES", "+++Pop Anthem.wav"] : FsPath) ∈
      (runPipe (fun _ _ => none) ["SORTED_MUSIC"] 0 ⟨[], 0, []⟩
        ["Melodic Dream.wav", "Techno Night.wav", "+++Pop Anthem.wav"]).fs ∧
    (sort_music (fun _ _ => none) ["SORTED_MUSIC"] []
        ["Melodic Dream.wav", "Techno Night.wav", "+++Pop Anthem.wav"]).map (fun x => x.1) =
      some ⟨1, 3, 0⟩ := by
  decide

/-- C6: a copy failure of one file, primary or favorites, is caught and
recorded as the pair of the filename and the message while processing
continues: over any failure oracle every file of the run contributes exactly
one outcome, prior errors are only ever extended, and a failing copy records
its filename with the message without counting the file processed. -/
theorem claim6_error_isolation (oracle : Nat → Bool → Option String) (basePath : FsPath)
    (files : List String) (i : Nat) (st : PipeState) :
    ((runPipe oracle basePath i st files).processed +
        (runPipe oracle basePath i st files).errors.length
      = st.processed + st.errors.length + files.length) ∧
    (∃ tail, (runPipe oracle basePath i st files).errors = st.errors ++ tail) ∧
    (∀ (fail : Bool → Option String) (name : String) (st2 : PipeState) (e : String),
      (fail false = some e →
        (processOne fail basePath st2 name).errors = st2.errors ++ [(name, e)] ∧
        (processOne fail basePath st2 name).processed = st2.processed) ∧
      (fail false = none → is_favorite name = true → fail true = some e →
        (processOne fail basePath st2 name).errors = st2.errors ++ [(name, e)] ∧
        (processOne fail basePath st2 name).processed = st2.processed)) :=
  ⟨runPipe_count oracle basePath files i st,
   runPipe_errors_extend oracle basePath files i st,
   fun fail name st2 e => processOne_error_record fail basePath st2 name e⟩

/-- C6 witness: with every copy refused, both files of a run are accounted
for as errors, and a single failing file records its name and message. -/
theorem claim6_error_isolation_witness :
    ((runPipe (fun _ _ => some "denied") ["out"] 0 ⟨[], 0, []⟩
        ["a.wav", "+++b.wav"]).processed +
      (runPipe (fun _ _ => some "denied") ["out"] 0 ⟨[], 0, []⟩
        ["a.wav", "+++b.wav"]).errors.length = 0 + 0 + 2) ∧
    (processOne (fun _ => some "denied") ["out"] ⟨[], 5, []⟩ "x.wav").errors =
      [] ++ [("x.wav", "denied")] ∧
    (processOne (fun _ => some "denied") ["out"] ⟨[], 5, []⟩ "x.wav").processed = 5 :=
  ⟨by
    have h := (claim6_error_isolation (fun _ _ => some "denied") ["out"]
      ["a.wav", "+++b.wav"] 0 ⟨[], 0, []⟩).1
    simpa using h,
   ((claim6_error_isolation (fun _ _ => none) ["out"] [] 0 ⟨[], 0, []⟩).2.2
      (fun _ => some "denied") "x.wav" ⟨[], 5, []⟩ "denied").1 rfl⟩

/-- C7: no copy ever targets an already-existing path: the destination
chosen by copy_file_with_versioning does not exist at the moment of the copy
(so files of earlier runs are never overwritten), a colliding name gets a
versioned sibling in the same folder instead, and no run ever removes an
existing path. -/
theorem claim7_never_overwrite (fs : List FsPath) (name destFolder : String)
    (basePath : FsPath) :
    ((copy_file_with_versioning fs name destFolder basePath).2 ∉
        mkdirParents fs (basePath ++ splitOnSlash destFolder)) ∧
    (copy_file_with_versioning fs name destFolder basePath).2 ∉ fs ∧
    (∀ p ∈ fs, p ∈ (copy_file_with_versioning fs name destFolder basePath).1) ∧
    ((basePath ++ splitOnSlash destFolder ++ [name])
        ∈ mkdirParents fs (basePath ++ splitOnSlash destFolder) →
      ∃ c, 2 ≤ c ∧ (copy_file_with_versioning fs name destFolder basePath).2 =
        (basePath ++ splitOnSlash destFolder) ++ [versionedName name c]) ∧
    (∀ (oracle : Nat → Bool → Option String) (files : List String) (i : Nat) (st : PipeState),
      ∀ p ∈ st.fs, p ∈ (runPipe oracle basePath i st files).fs) := by
  have hspec := get_next_version_spec
    (mkdirParents fs (basePath ++ splitOnSlash destFolder))
    ((basePath ++ splitOnSlash destFolder) ++ [name])
  have h2 : (copy_file_with_versioning fs name destFolder basePath).2 =
      get_next_version_filename (mkdirParents fs (basePath ++ splitOnSlash destFolder))
        ((basePath ++ splitOnSlash destFolder) ++ [name]) := by
    simp [copy_file_with_versioning]
  refine ⟨by rw [h2]; exact hspec.2.2, ?_, ?_, ?_,
    fun oracle files i st p hp => runPipe_fs_mono oracle basePath files i st p hp⟩
  · intro hmem
    exact (h2 ▸ hspec.2.2) (mem_mkdirParents _ _ _ hmem)
  · intro p hp
    simp only [copy_file_with_versioning]
    exact List.mem_cons_of_mem _ (mem_mkdirParents _ _ _ hp)
  · intro hmem
    obtain ⟨c, hc2, heq, -, -⟩ := hspec.2.1 hmem
    exact ⟨c, hc2, by rw [h2, heq, candidatePath_concat]⟩

/-- C7 witness: a second run of b.wav into a tree already holding b.wav
targets the fresh versioned sibling b v2.wav and keeps the old file. -/
theorem claim7_never_overwrite_witness :
    ((["o", "x", "b.wav"] : FsPath)
        ∈ mkdirParents [["o", "x", "b.wav"]] (["o"] ++ splitOnSlash "x")) ∧
    (∃ c, 2 ≤ c ∧ (copy_file_with_versioning [["o", "x", "b.wav"]] "b.wav" "x" ["o"]).2 =
        (["o"] ++ splitOnSlash "x") ++ [versionedName "b.wav" c]) ∧
    (copy_file_with_versioning [["o", "x", "b.wav"]] "b.wav" "x" ["o"]).2 =
      ["o", "x", "b v2.wav"] ∧
    (copy_file_with_versioning [["o", "x", "b.wav"]] "b.wav" "x" ["o"]).2 ∉
      [(["o", "x", "b.wav"] : FsPath)] ∧
    (["o", "x", "b.wav"] : FsPath) ∈ (copy_file_with_versioning [["o", "x", "b.wav"]] "b.wav" "x" ["o"]).1 :=
  ⟨by decide,
   (claim7_never_overwrite [["o", "x", "b.wav"]] "b.wav" "x" ["o"]).2.2.2.1 (by decide),
   by decide,
   (claim7_never_overwrite [["o", "x", "b.wav"]] "b.wav" "x" ["o"]).2.1,
   (claim7_never_overwrite [["o", "x", "b.wav"]] "b.wav" "x" ["o"]).2.2.1 _ (by decide)⟩

/-- C10: the favorites count of the final report equals the number of
discovered files whose name begins with +++, computed during classification
before any copying and therefore identical under any failure oracle;
concretely, with a single favorite whose copy fails, the report still
counts one favorite while no file was actually placed under _FAVORITES. -/
theorem claim10_favorites_count :
    (∀ (oracle : Nat → Bool → Option String) (basePath : FsPath) (initFs : List FsPath)
      (files : List String) (rep : RunReport) (st : PipeState),
      sort_music oracle basePath initFs files = some (rep, st) →
      rep.favoritesCount = files.countP (fun n => is_favorite n)) ∧
    (sort_music (fun _ _ => some "disk full") ["out"] [] ["+++a.wav"]).map
      (fun x => (x.1.favoritesCount, favFilesCount x.2.fs, x.1.errorCount)) =
      some (1, 0, 1) := by
  constructor
  · intro oracle basePath initFs files rep st h
    unfold sort_music at h
    by_cases hemp : files.isEmpty
    · rw [if_pos hemp] at h
      cases h
    · rw [if_neg hemp] at h
      rw [Option.some.injEq, Prod.mk.injEq] at h
      rw [← h.1]
  · decide

/-- C10 witness: the count equation applied to a concrete successful run
with one favorite among two files. -/
theorem claim10_favorites_count_witness :
    ∃ rep st, sort_music (fun _ _ => none) ["out"] [] ["+++a.wav", "b.wav"] = some (rep, st) ∧
      rep.favoritesCount =
        (["+++a.wav", "b.wav"] : List String).countP (fun n => is_favorite n) := by
  cases h : sort_music (fun _ _ => none) ["out"] [] ["+++a.wav", "b.wav"] with
  | none =>
    exact absurd h (by decide)
  | some x =>
    exact ⟨x.1, x.2, rfl,
      claim10_favorites_count.1 (fun _ _ => none) ["out"] [] ["+++a.wav", "b.wav"] x.1 x.2 h⟩

end MusicSort
